import Mathlib

/-!
Verification of the email sorting engine (sort_emails.rs / config.rs) of the
email-to-markdown repository.  Strings are modelled as lists of characters;
ASCII lowercasing stands in for Unicode lowercasing; substring search is an
explicit recursive scan mirroring str::contains.
-/

/-- Strings are modelled as lists of characters. -/
abbrev Str := List Char

/-- Model of str::to_lowercase (character-wise lowercasing). -/
def lowerStr (s : Str) : Str := s.map Char.toLower

/-- Model of str::starts_with for a string pattern: pat is a leading segment of s. -/
def startsWithL : Str → Str → Bool
  | [], _ => true
  | _ :: _, [] => false
  | p :: ps, c :: cs => p == c && startsWithL ps cs

/-- Model of str::ends_with for a string pattern. -/
def endsWithL (pat s : Str) : Bool := startsWithL pat.reverse s.reverse

/-- Model of str::contains: pat occurs as a contiguous segment of hay. -/
def containsSub : Str → Str → Bool
  | [], pat => pat.isEmpty
  | c :: t, pat => startsWithL pat (c :: t) || containsSub t pat

/-- Model of str::trim: drop whitespace from both ends. -/
def trimStr (s : Str) : Str :=
  ((s.dropWhile Char.isWhitespace).reverse.dropWhile Char.isWhitespace).reverse

/-- Split a string at newline characters ("a\nb" gives [a, b]; "" gives [""]). -/
def splitNl : Str → List Str
  | [] => [[]]
  | c :: t =>
    if c = '\n' then [] :: splitNl t
    else
      match splitNl t with
      | [] => [[c]]
      | l :: ls => (c :: l) :: ls

/-- Drop one trailing carriage return of a newline-terminated line, as
str::lines does for a carriage return that is part of a CRLF ending. -/
def stripCr (l : Str) : Str := if endsWithL ['\r'] l then l.dropLast else l

/-- Strip the carriage return of every segment except the last: in a split at
newlines, every segment but the last was newline-terminated, and str::lines
removes a carriage return only when it precedes the newline; a bare trailing
carriage return in an unterminated final line is kept. -/
def mapStripCrButLast : List Str → List Str
  | [] => []
  | [l] => [l]
  | l :: ls => stripCr l :: mapStripCrButLast ls

/-- Model of str::lines: split at newlines, with no final empty segment after
a trailing newline; a carriage return preceding a newline is removed from its
line, while a bare carriage return ending an unterminated final line stays
(so "foo\r\nbar\n\nbaz\r" gives foo, bar, the empty line, and baz\r). -/
def rustLines (s : Str) : List Str :=
  match s with
  | [] => []
  | _ =>
    if s.getLast? = some '\n' then ((splitNl s).dropLast).map stripCr
    else mapStripCrButLast (splitNl s)

/-- Model of slice::join("\n") on a list of lines. -/
def joinNl : List Str → Str
  | [] => []
  | [l] => l
  | l :: ls => l ++ '\n' :: joinNl ls

/-- The proposition that pat occurs as a contiguous substring of hay. -/
def IsSub (pat hay : Str) : Prop := ∃ l r, hay = l ++ pat ++ r

/-- Email sorting category (enum Category). -/
inductive Category where
  | delete
  | summarize
  | keep
deriving DecidableEq, Repr

/-- Display label of a Category. -/
def category_label : Category → Str
  | .delete => "delete".data
  | .summarize => "summarize".data
  | .keep => "keep".data

/-- Email type classification (enum EmailSortType). -/
inductive EmailSortType where
  | newsletter
  | mailingList
  | group
  | direct
  | unknown
deriving DecidableEq, Repr

/-- Display label of an EmailSortType. -/
def type_label : EmailSortType → Str
  | .newsletter => "newsletter".data
  | .mailingList => "mailing_list".data
  | .group => "group".data
  | .direct => "direct".data
  | .unknown => "unknown".data

/-- Analyzed email data (struct EmailData); the file path is kept as a string,
the parsed date as an optional formatted month key. -/
structure EmailData where
  file_path : Str
  file_name : Str
  file_size : Nat
  body_length : Nat
  has_attachments : Bool
  attachment_count : Nat
  date : Option Str
  age_days : Option Int
  sender : Str
  recipients : List Str
  subject : Str
  tags : List Str
  email_type : EmailSortType
  score : Int
  category : Category

/-- Configuration for the email sorting tool (struct SortConfig); the
type_weights hash map is modelled as an association list. -/
structure SortConfig where
  delete_keywords : List Str
  delete_senders : List Str
  delete_subjects : List Str
  summarize_max_length : Nat
  summarize_keywords : List Str
  keep_keywords : List Str
  keep_senders : List Str
  keep_subjects : List Str
  whitelist : List Str
  recent_threshold_days : Int
  old_threshold_days : Int
  small_email_threshold : Nat
  large_email_threshold : Nat
  keep_with_attachments : Bool
  type_weights : List (Str × Int)

/-- Model of SortConfig::is_whitelisted: empty senders are never whitelisted;
otherwise each whitelist entry is tried for an exact (case-insensitive) match,
an `@domain` suffix match, or a `user@` leading match. -/
def is_whitelisted (cfg : SortConfig) (sender_email : Str) : Bool :=
  if sender_email.isEmpty then false
  else
    let sender_lower := lowerStr sender_email
    cfg.whitelist.any fun entry =>
      let entry_lower := lowerStr entry
      sender_lower == entry_lower
        || (startsWithL ['@'] entry_lower && endsWithL entry_lower sender_lower)
        || (endsWithL ['@'] entry_lower && startsWithL entry_lower sender_lower)

/-- Model of EmailSorter::determine_email_type: decided from the subject only
(the frontmatter argument is ignored, as in the source). -/
def determine_email_type {Y : Type} (subject : Str) (_fm : Y) : EmailSortType :=
  let subject_lower := lowerStr subject
  if containsSub subject_lower "newsletter".data
      || containsSub subject_lower "bulletin".data
      || containsSub subject_lower "digest".data
  then EmailSortType.newsletter
  else EmailSortType.direct

/-- The fixed nine-term list scanned in the body during scoring. -/
def important_keywords : List Str :=
  ["contract".data, "invoice".data, "legal".data, "urgent".data, "important".data,
   "confidential".data, "agreement".data, "signature".data, "payment".data]

/-- Model of EmailSorter::calculate_score: sequential accumulation of the
type weight, age, size, attachment, subject keyword, sender and body terms. -/
def calculate_score (cfg : SortConfig) (email_data : EmailData) (body : Str) : Int :=
  let score : Int := 0
  let score :=
    match List.lookup (type_label email_data.email_type) cfg.type_weights with
    | some weight => score + weight
    | none => score
  let score :=
    match email_data.age_days with
    | some age =>
      if age ≤ cfg.recent_threshold_days then score + 2
      else if age ≥ cfg.old_threshold_days then score - 1
      else score
    | none => score
  let score :=
    if email_data.body_length ≤ cfg.small_email_threshold then score - 1
    else if email_data.body_length ≥ cfg.large_email_threshold then score + 1
    else score
  let score :=
    if email_data.has_attachments then
      if cfg.keep_with_attachments then score + 2 else score - 1
    else score
  let subject_lower := lowerStr email_data.subject
  let delete_count : Int :=
    ((cfg.delete_keywords.filter fun k => containsSub subject_lower (lowerStr k)).length : Int)
  let score := score - delete_count
  let keep_count : Int :=
    ((cfg.keep_keywords.filter fun k => containsSub subject_lower (lowerStr k)).length : Int)
  let score := score + keep_count * 2
  let sender_lower := lowerStr email_data.sender
  let score :=
    if cfg.delete_senders.any (fun s => containsSub sender_lower (lowerStr s)) then score - 3
    else score
  let score :=
    if cfg.keep_senders.any (fun s => containsSub sender_lower (lowerStr s)) then score + 3
    else score
  let body_lower := lowerStr body
  let score :=
    if important_keywords.any (fun k => containsSub body_lower k) then score + 2
    else score
  score

/-- The fixed five-term list scanned in the body by the keep-indicator check. -/
def keep_body_keywords : List Str :=
  ["contract".data, "invoice".data, "legal".data, "urgent".data, "important".data]

/-- Strong delete indicators of EmailSorter::determine_category: a Newsletter
type, a delete keyword in the lowercased subject, or a delete sender fragment
in the lowercased sender. -/
def delete_indicators (cfg : SortConfig) (email_data : EmailData) : Bool :=
  decide (email_data.email_type = EmailSortType.newsletter)
    || cfg.delete_keywords.any (fun k => containsSub (lowerStr email_data.subject) (lowerStr k))
    || cfg.delete_senders.any (fun s => containsSub (lowerStr email_data.sender) (lowerStr s))

/-- Strong keep indicators of EmailSorter::determine_category: a keep keyword
in the lowercased subject, a keep sender fragment in the lowercased sender,
attachments under the keep_with_attachments policy, or one of the five fixed
terms in the lowercased body. -/
def keep_indicators (cfg : SortConfig) (email_data : EmailData) (body : Str) : Bool :=
  cfg.keep_keywords.any (fun k => containsSub (lowerStr email_data.subject) (lowerStr k))
    || cfg.keep_senders.any (fun s => containsSub (lowerStr email_data.sender) (lowerStr s))
    || (email_data.has_attachments && cfg.keep_with_attachments)
    || keep_body_keywords.any (fun k => containsSub (lowerStr body) k)

/-- Model of EmailSorter::determine_category: whitelist short-circuit, then
keep indicators, then delete indicators / low score, then high score or long
body, then the Summarize default. -/
def determine_category (cfg : SortConfig) (email_data : EmailData) (body : Str) : Category :=
  if is_whitelisted cfg email_data.sender then Category.keep
  else if keep_indicators cfg email_data body then Category.keep
  else if delete_indicators cfg email_data || decide (email_data.score ≤ -2) then Category.delete
  else if decide (email_data.score ≥ 2)
      || decide (email_data.body_length > cfg.summarize_max_length) then Category.keep
  else Category.summarize

/-- Helper of extract_frontmatter: scan the lines after the opening delimiter
for the first line whose trimmed text is the delimiter, returning the lines
before it and the lines after it. -/
def splitAtClose : List Str → Option (List Str × List Str)
  | [] => none
  | l :: rest =>
    if trimStr l = "---".data then some ([], rest)
    else
      match splitAtClose rest with
      | some (fm, bd) => some (l :: fm, bd)
      | none => none

/-- Model of extract_frontmatter: content must start with "---"; the
frontmatter is the lines strictly between the opening line and the first later
line that trims to "---", joined by newlines, and the body is the remaining
lines joined by newlines. -/
def extract_frontmatter (content : Str) : Option (Str × Str) :=
  if startsWithL "---".data content then
    match rustLines content with
    | [] => none
    | _ :: rest =>
      match splitAtClose rest with
      | some (fm, bd) => some (joinNl fm, joinNl bd)
      | none => none
  else none

/-- Model of EmailSorter::analyze_email_file on an already-read file content.
The YAML parse is abstracted as parse_fm (none standing for a parse error),
the fs::metadata call as the fallible value meta, and the construction of the
EmailData record (field extraction, date parsing, typing, scoring) as build. -/
def analyze_email_file {Y E M B : Type} (parse_fm : Str → Option Y)
    (meta : Except E M) (build : Y → Str → M → B) (content : Str) :
    Except E (Option B) :=
  if (trimStr content).length < 10 then Except.ok none
  else if !startsWithL "---".data content then Except.ok none
  else
    match extract_frontmatter content with
    | none => Except.ok none
    | some (fm, body) =>
      match parse_fm fm with
      | none => Except.ok none
      | some v =>
        match meta with
        | Except.error e => Except.error e
        | Except.ok m => Except.ok (some (build v body m))

/-- Sorting statistics (struct SortStats); each hash map is modelled as an
association list in insertion order. -/
structure SortStats where
  total_emails : Nat
  by_category : List (Str × Nat)
  by_type : List (Str × Nat)
  by_sender : List (Str × Nat)
  by_date : List (Str × Nat)

/-- Model of *map.entry(k).or_insert(0) += 1 on a counter map. -/
def bump : List (Str × Nat) → Str → List (Str × Nat)
  | [], k => [(k, 1)]
  | (k', v) :: rest, k =>
    if k' == k then (k', v + 1) :: rest else (k', v) :: bump rest k

/-- Model of the statistics set up by EmailSorter::new: zero counts for the
three category keys, all other maps empty. -/
def init_stats : SortStats :=
  { total_emails := 0
    by_category := [("delete".data, 0), ("summarize".data, 0), ("keep".data, 0)]
    by_type := []
    by_sender := []
    by_date := [] }

/-- Model of the per-record statistics update in EmailSorter::sort_emails. -/
def record_stats (st : SortStats) (e : EmailData) : SortStats :=
  { total_emails := st.total_emails + 1
    by_category := bump st.by_category (category_label e.category)
    by_type := bump st.by_type (type_label e.email_type)
    by_sender := bump st.by_sender e.sender
    by_date :=
      match e.date with
      | some d => bump st.by_date d
      | none => st.by_date }

/-- Model of the statistics accumulated by EmailSorter::sort_emails over the
successfully analyzed records of a batch. -/
def sort_emails_stats (es : List EmailData) : SortStats :=
  es.foldl record_stats init_stats

/-- The categories map of the report summary built by
EmailSorter::generate_report: a clone of the by_category statistics. -/
def report_summary_categories (st : SortStats) : List (Str × Nat) :=
  st.by_category

/-- Stable insertion of a pair into a list sorted by descending count: the new
element goes before the first element with a count not above its own, so
earlier elements win ties, as in a stable sort. -/
def insertByCountDesc (x : Str × Nat) : List (Str × Nat) → List (Str × Nat)
  | [] => [x]
  | y :: ys => if y.2 ≤ x.2 then x :: y :: ys else y :: insertByCountDesc x ys

/-- Stable sort by descending count; produces the same list as the source's
stable sort_by with the descending count comparator. -/
def sortByCountDesc : List (Str × Nat) → List (Str × Nat)
  | [] => []
  | x :: xs => insertByCountDesc x (sortByCountDesc xs)

/-- Model of the top-sender list of EmailSorter::generate_report, as a function
of the iteration order of the by_sender hash map: a stable sort by descending
count followed by take 10. -/
def top_senders (sender_counts : List (Str × Nat)) : List (Str × Nat) :=
  (sortByCountDesc sender_counts).take 10

/-- Whitelist matching exactly as the specification states it (spec §4.3
step 1): case-insensitive exact equality with an entry, an entry starting
with '@' matched as a sender suffix, or an entry ending with '@' matched as a
sender leading segment.  Written from the spec's words for comparison with
is_whitelisted. -/
def spec_whitelist_match (cfg : SortConfig) (sender : Str) : Bool :=
  cfg.whitelist.any fun entry =>
    let entry_lower := lowerStr entry
    let sender_lower := lowerStr sender
    sender_lower == entry_lower
      || (startsWithL ['@'] entry_lower && endsWithL entry_lower sender_lower)
      || (endsWithL ['@'] entry_lower && startsWithL entry_lower sender_lower)

theorem startsWithL_iff (pat s : Str) : startsWithL pat s = true ↔ ∃ r, s = pat ++ r := by
  induction pat generalizing s with
  | nil => simp [startsWithL]
  | cons p ps ih =>
    cases s with
    | nil => simp [startsWithL]
    | cons c cs =>
      simp only [startsWithL, Bool.and_eq_true, beq_iff_eq, ih, List.cons_append,
        List.cons.injEq]
      constructor
      · rintro ⟨hpc, r, hr⟩
        exact ⟨r, hpc.symm, hr⟩
      · rintro ⟨r, hpc, hr⟩
        exact ⟨hpc.symm, r, hr⟩

theorem containsSub_iff (hay pat : Str) : containsSub hay pat = true ↔ IsSub pat hay := by
  induction hay with
  | nil =>
    simp only [containsSub, List.isEmpty_iff, IsSub]
    constructor
    · rintro rfl
      exact ⟨[], [], rfl⟩
    · rintro ⟨l, r, h⟩
      cases l <;> cases pat <;> simp_all
  | cons c t ih =>
    simp only [containsSub, Bool.or_eq_true, startsWithL_iff, ih, IsSub]
    constructor
    · rintro (⟨r, hr⟩ | ⟨l, r, hr⟩)
      · exact ⟨[], r, by simpa using hr⟩
      · exact ⟨c :: l, r, by simp [hr]⟩
    · rintro ⟨l, r, hr⟩
      cases l with
      | nil => exact Or.inl ⟨r, by simpa using hr⟩
      | cons x xs =>
        rcases List.cons.injEq .. ▸ hr with ⟨hcx, ht⟩
        exact Or.inr ⟨xs, r, by simpa using ht⟩

theorem is_whitelisted_eq_spec (cfg : SortConfig) (s : Str) (h : s ≠ []) :
    is_whitelisted cfg s = spec_whitelist_match cfg s := by
  cases s with
  | nil => exact absurd rfl h
  | cons c t => simp [is_whitelisted, spec_whitelist_match]

theorem spec_false_imp_not_whitelisted (cfg : SortConfig) (s : Str)
    (h : spec_whitelist_match cfg s = false) : is_whitelisted cfg s = false := by
  cases s with
  | nil => simp [is_whitelisted]
  | cons c t => rw [is_whitelisted_eq_spec cfg (c :: t) (by simp)]; exact h

/-- A configuration with empty keyword lists and the documented default
thresholds, used as base point for concrete evaluations. -/
def cfgEmpty : SortConfig :=
  { delete_keywords := []
    delete_senders := []
    delete_subjects := []
    summarize_max_length := 5000
    summarize_keywords := []
    keep_keywords := []
    keep_senders := []
    keep_subjects := []
    whitelist := []
    recent_threshold_days := 30
    old_threshold_days := 365
    small_email_threshold := 500
    large_email_threshold := 10000
    keep_with_attachments := true
    type_weights := [] }

/-- A minimal record with empty fields, Direct type and score 0, used as base
point for concrete evaluations. -/
def emailEmpty : EmailData :=
  { file_path := []
    file_name := []
    file_size := 0
    body_length := 0
    has_attachments := false
    attachment_count := 0
    date := none
    age_days := none
    sender := []
    recipients := []
    subject := []
    tags := []
    email_type := EmailSortType.direct
    score := 0
    category := Category.summarize }

/-- A configuration whose whitelist holds the empty string. -/
def cfgC1 : SortConfig := { cfgEmpty with whitelist := [[]] }

/-- Claim C1 counterexample: a record with an empty sender matches the empty
whitelist entry under the stated pattern rules (exact case-insensitive
equality), yet determine_category does not return Keep, because
is_whitelisted rejects empty senders before consulting the whitelist. -/
theorem whitelist_claim_fails_on_empty_sender :
    spec_whitelist_match cfgC1 emailEmpty.sender = true ∧
    determine_category cfgC1 emailEmpty [] ≠ Category.keep := by
  decide

/-- Claim C1 (amended): for every record with a NON-EMPTY sender and every
configuration, if the sender matches some whitelist entry under the stated
pattern rules, then determine_category returns Keep, regardless of the score
and of any delete or keep indicators. -/
theorem whitelist_match_forces_keep (cfg : SortConfig) (e : EmailData) (body : Str)
    (hne : e.sender ≠ []) (hm : spec_whitelist_match cfg e.sender = true) :
    determine_category cfg e body = Category.keep := by
  have h := is_whitelisted_eq_spec cfg e.sender hne
  simp [determine_category, h, hm]

/-- A configuration whose whitelist holds the leading-match pattern "boss@". -/
def cfgC1w : SortConfig := { cfgEmpty with whitelist := ["boss@".data] }

/-- A record whose sender matches the "boss@" whitelist pattern, with a low
score and a delete-worthy type. -/
def emailC1w : EmailData :=
  { emailEmpty with
      sender := "Boss@Anywhere.com".data
      email_type := EmailSortType.newsletter
      score := -5 }

theorem whitelist_match_forces_keep_witness :
    determine_category cfgC1w emailC1w [] = Category.keep :=
  whitelist_match_forces_keep cfgC1w emailC1w [] (by decide) (by decide)

/-- The keep indicators as the specification phrases them, with keyword
matching case-insensitive (keyword and field both lowercased, per spec §3). -/
def keep_indicators_prop (cfg : SortConfig) (e : EmailData) (body : Str) : Prop :=
  (∃ k ∈ cfg.keep_keywords, IsSub (lowerStr k) (lowerStr e.subject))
  ∨ (∃ s ∈ cfg.keep_senders, IsSub (lowerStr s) (lowerStr e.sender))
  ∨ (e.has_attachments = true ∧ cfg.keep_with_attachments = true)
  ∨ (∃ k ∈ keep_body_keywords, IsSub k (lowerStr body))

/-- The delete indicators as the specification phrases them. -/
def delete_indicators_prop (cfg : SortConfig) (e : EmailData) : Prop :=
  e.email_type = EmailSortType.newsletter
  ∨ (∃ k ∈ cfg.delete_keywords, IsSub (lowerStr k) (lowerStr e.subject))
  ∨ (∃ s ∈ cfg.delete_senders, IsSub (lowerStr s) (lowerStr e.sender))

theorem keep_indicators_iff (cfg : SortConfig) (e : EmailData) (body : Str) :
    keep_indicators cfg e body = true ↔ keep_indicators_prop cfg e body := by
  simp only [keep_indicators, keep_indicators_prop, Bool.or_eq_true, Bool.and_eq_true,
    List.any_eq_true, containsSub_iff]
  simp only [or_assoc]

theorem delete_indicators_iff (cfg : SortConfig) (e : EmailData) :
    delete_indicators cfg e = true ↔ delete_indicators_prop cfg e := by
  simp only [delete_indicators, delete_indicators_prop, Bool.or_eq_true,
    decide_eq_true_eq, List.any_eq_true, containsSub_iff]
  simp only [or_assoc]

/-- Claim C2: for a record not matching the whitelist, determine_category
follows exactly the ordered procedure keep-indicators, then delete-indicators
or low score, then high score or long body, then Summarize; in particular a
subject matching both a keep keyword and a delete keyword is kept. -/
theorem category_follows_procedure (cfg : SortConfig) (e : EmailData) (body : Str)
    (hw : spec_whitelist_match cfg e.sender = false) :
    (keep_indicators_prop cfg e body → determine_category cfg e body = Category.keep)
    ∧ (¬ keep_indicators_prop cfg e body →
        (delete_indicators_prop cfg e ∨ e.score ≤ -2) →
        determine_category cfg e body = Category.delete)
    ∧ (¬ keep_indicators_prop cfg e body →
        ¬ (delete_indicators_prop cfg e ∨ e.score ≤ -2) →
        (e.score ≥ 2 ∨ e.body_length > cfg.summarize_max_length) →
        determine_category cfg e body = Category.keep)
    ∧ (¬ keep_indicators_prop cfg e body →
        ¬ (delete_indicators_prop cfg e ∨ e.score ≤ -2) →
        ¬ (e.score ≥ 2 ∨ e.body_length > cfg.summarize_max_length) →
        determine_category cfg e body = Category.summarize)
    ∧ ((∃ k ∈ cfg.keep_keywords, IsSub (lowerStr k) (lowerStr e.subject)) →
        (∃ k ∈ cfg.delete_keywords, IsSub (lowerStr k) (lowerStr e.subject)) →
        determine_category cfg e body = Category.keep) := by
  have hnw : is_whitelisted cfg e.sender = false := spec_false_imp_not_whitelisted cfg e.sender hw
  refine ⟨?_, ?_, ?_, ?_, ?_⟩
  · intro hk
    simp [determine_category, hnw, (keep_indicators_iff cfg e body).mpr hk]
  · intro hk hd
    have hkb : keep_indicators cfg e body = false :=
      Bool.eq_false_iff.mpr fun ht => hk ((keep_indicators_iff cfg e body).mp ht)
    rcases hd with hd | hs
    · simp [determine_category, hnw, hkb, (delete_indicators_iff cfg e).mpr hd]
    · simp [determine_category, hnw, hkb, hs]
  · intro hk hd hs
    have hkb : keep_indicators cfg e body = false :=
      Bool.eq_false_iff.mpr fun ht => hk ((keep_indicators_iff cfg e body).mp ht)
    have hdb : delete_indicators cfg e = false :=
      Bool.eq_false_iff.mpr fun ht => hd (Or.inl ((delete_indicators_iff cfg e).mp ht))
    have hsc : ¬ e.score ≤ -2 := fun h => hd (Or.inr h)
    rcases hs with hs | hs
    · simp [determine_category, hnw, hkb, hdb, hsc, hs]
    · simp [determine_category, hnw, hkb, hdb, hsc, hs]
  · intro hk hd hs
    have hkb : keep_indicators cfg e body = false :=
      Bool.eq_false_iff.mpr fun ht => hk ((keep_indicators_iff cfg e body).mp ht)
    have hdb : delete_indicators cfg e = false :=
      Bool.eq_false_iff.mpr fun ht => hd (Or.inl ((delete_indicators_iff cfg e).mp ht))
    have hsc : ¬ e.score ≤ -2 := fun h => hd (Or.inr h)
    have hs2 : ¬ e.score ≥ 2 := fun h => hs (Or.inl h)
    have hbl : ¬ e.body_length > cfg.summarize_max_length := fun h => hs (Or.inr h)
    simp [determine_category, hnw, hkb, hdb, hsc, hs2, hbl]
  · intro hkk _
    simp [determine_category, hnw,
      (keep_indicators_iff cfg e body).mpr (Or.inl hkk)]

/-- A configuration listing "urgent" both as keep keyword and delete keyword. -/
def cfgC2 : SortConfig :=
  { cfgEmpty with
      keep_keywords := ["urgent".data]
      delete_keywords := ["urgent".data] }

/-- A record whose subject contains the conflicted keyword "urgent". -/
def emailC2 : EmailData := { emailEmpty with subject := "Urgent sale".data, sender := "x@y".data }

theorem category_follows_procedure_witness :
    determine_category cfgC2 emailC2 [] = Category.keep :=
  (category_follows_procedure cfgC2 emailC2 [] (by decide)).2.2.2.2
    ⟨"urgent".data, by decide, ⟨[], " sale".data, by decide⟩⟩
    ⟨"urgent".data, by decide, ⟨[], " sale".data, by decide⟩⟩

/-- Term 1 of spec §4.2: the configured type weight of the email type's label,
0 when absent. -/
def type_weight_term (cfg : SortConfig) (e : EmailData) : Int :=
  match List.lookup (type_label e.email_type) cfg.type_weights with
  | some weight => weight
  | none => 0

/-- Term 2 of spec §4.2: the age contribution, first match winning. -/
def age_term (cfg : SortConfig) (e : EmailData) : Int :=
  match e.age_days with
  | some age =>
    if age ≤ cfg.recent_threshold_days then 2
    else if age ≥ cfg.old_threshold_days then -1
    else 0
  | none => 0

/-- Term 3 of spec §4.2: the size contribution. -/
def size_term (cfg : SortConfig) (e : EmailData) : Int :=
  if e.body_length ≤ cfg.small_email_threshold then -1
  else if e.body_length ≥ cfg.large_email_threshold then 1
  else 0

/-- Term 4 of spec §4.2: the attachment contribution. -/
def attachment_term (cfg : SortConfig) (e : EmailData) : Int :=
  if e.has_attachments then
    if cfg.keep_with_attachments then 2 else -1
  else 0

/-- Term 5 of spec §4.2: minus one per matching delete keyword plus two per
matching keep keyword, matching case-insensitively against the subject. -/
def subject_keyword_term (cfg : SortConfig) (e : EmailData) : Int :=
  -(((cfg.delete_keywords.filter fun k =>
        containsSub (lowerStr e.subject) (lowerStr k)).length : Int))
  + 2 * ((cfg.keep_keywords.filter fun k =>
        containsSub (lowerStr e.subject) (lowerStr k)).length : Int)

/-- Term 6 of spec §4.2: minus three for a delete-sender match and,
independently, plus three for a keep-sender match. -/
def sender_term (cfg : SortConfig) (e : EmailData) : Int :=
  (if cfg.delete_senders.any (fun s => containsSub (lowerStr e.sender) (lowerStr s)) then -3
   else 0)
  + (if cfg.keep_senders.any (fun s => containsSub (lowerStr e.sender) (lowerStr s)) then 3
     else 0)

/-- Term 7 of spec §4.2: a single +2 bonus when the lowercased body contains
one of the nine important keywords. -/
def body_bonus_term (body : Str) : Int :=
  if important_keywords.any (fun k => containsSub (lowerStr body) k) then 2 else 0

set_option maxHeartbeats 1000000 in
/-- Claim C3: calculate_score returns exactly the unclamped sum of the seven
independent terms of spec §4.2. -/
theorem score_is_sum_of_terms (cfg : SortConfig) (e : EmailData) (body : Str) :
    calculate_score cfg e body =
      type_weight_term cfg e + age_term cfg e + size_term cfg e + attachment_term cfg e
      + subject_keyword_term cfg e + sender_term cfg e + body_bonus_term body := by
  unfold calculate_score type_weight_term age_term size_term attachment_term
    subject_keyword_term sender_term body_bonus_term
  dsimp only
  cases List.lookup (type_label e.email_type) cfg.type_weights <;>
  cases e.age_days <;>
  by_cases h3 : e.body_length ≤ cfg.small_email_threshold <;>
  by_cases h4 : e.body_length ≥ cfg.large_email_threshold <;>
  by_cases h5 : e.has_attachments = true <;>
  by_cases h6 : cfg.keep_with_attachments = true <;>
  by_cases h7 : (cfg.delete_senders.any fun s =>
    containsSub (lowerStr e.sender) (lowerStr s)) = true <;>
  by_cases h8 : (cfg.keep_senders.any fun s =>
    containsSub (lowerStr e.sender) (lowerStr s)) = true <;>
  by_cases h9 : (important_keywords.any fun k =>
    containsSub (lowerStr body) k) = true <;>
  try simp only [h3, h4, h5, h6, h7, h8, h9, if_true, if_false, ite_true, ite_false,
    if_pos, if_neg, not_false_iff, Bool.not_eq_true]
  all_goals
    repeat' split
  all_goals simp only [zero_add, ge_iff_le, Int.reduceNeg]
  all_goals omega

/-- Claim C4: analyze_email_file returns Ok(None), a skip and never an error,
whenever the trimmed content is shorter than 10 characters, the content does
not begin with "---", no closing delimiter line is found, or the metadata
block fails to parse; this holds for every abstract parser, every metadata
outcome and every record builder. -/
theorem analyze_skips_malformed {Y E M B : Type} (parse_fm : Str → Option Y)
    (meta : Except E M) (build : Y → Str → M → B) (content : Str)
    (h : (trimStr content).length < 10
      ∨ startsWithL "---".data content = false
      ∨ extract_frontmatter content = none
      ∨ (∃ fm body, extract_frontmatter content = some (fm, body) ∧ parse_fm fm = none)) :
    analyze_email_file parse_fm meta build content = Except.ok none := by
  unfold analyze_email_file
  split
  · rfl
  next h1 =>
    split
    · rfl
    next h2 =>
      rcases h with h | h | h | ⟨fm, body, hef, hp⟩
      · exact absurd h h1
      · rw [h] at h2
        simp at h2
      · rw [h]
      · rw [hef]
        dsimp only
        rw [hp]

theorem analyze_skips_malformed_witness :
    analyze_email_file (fun _ => (none : Option Unit)) (Except.ok (0 : Nat) : Except Unit Nat)
      (fun _ _ _ => (0 : Nat)) "x".data = Except.ok none :=
  analyze_skips_malformed _ _ _ _ (Or.inl (by decide))

theorem splitAtClose_eq_some_iff (ls fm bd : List Str) :
    splitAtClose ls = some (fm, bd) ↔
      ∃ cl, ls = fm ++ cl :: bd
        ∧ (∀ l ∈ fm, trimStr l ≠ "---".data)
        ∧ trimStr cl = "---".data := by
  induction ls generalizing fm bd with
  | nil =>
    simp only [splitAtClose]
    constructor
    · intro h
      exact absurd h (by simp)
    · rintro ⟨cl, heq, _, _⟩
      exact absurd heq.symm (by simp)
  | cons l rest ih =>
    by_cases hl : trimStr l = "---".data
    · simp only [splitAtClose, if_pos hl, Option.some.injEq, Prod.mk.injEq]
      constructor
      · rintro ⟨rfl, rfl⟩
        exact ⟨l, rfl, by simp, hl⟩
      · rintro ⟨cl, heq, hclean, hcl⟩
        cases fm with
        | nil =>
          rcases List.cons.injEq .. ▸ heq with ⟨h1, h2⟩
          exact ⟨rfl, h2.symm ▸ rfl⟩
        | cons f fs =>
          rcases List.cons.injEq .. ▸ heq with ⟨h1, _⟩
          exact absurd (h1 ▸ hl) (hclean f (by simp))
    · simp only [splitAtClose, if_neg hl]
      cases hsr : splitAtClose rest with
      | some p =>
        obtain ⟨f, b⟩ := p
        simp only [Option.some.injEq, Prod.mk.injEq]
        constructor
        · rintro ⟨rfl, rfl⟩
          obtain ⟨cl, hr, hclean, hcl⟩ := (ih f b).mp hsr
          refine ⟨cl, by rw [hr]; rfl, ?_, hcl⟩
          intro x hx
          rcases List.mem_cons.mp hx with rfl | hx
          · exact hl
          · exact hclean x hx
        · rintro ⟨cl, heq, hclean, hcl⟩
          cases fm with
          | nil =>
            rcases List.cons.injEq .. ▸ heq with ⟨h1, _⟩
            exact absurd (h1.symm ▸ hcl) hl
          | cons f0 fs =>
            rcases List.cons.injEq .. ▸ heq with ⟨h1, h2⟩
            have hres : splitAtClose rest = some (fs, bd) :=
              (ih fs bd).mpr ⟨cl, h2, fun x hx => hclean x (by simp [hx]), hcl⟩
            rw [hsr] at hres
            rcases Option.some.injEq .. ▸ hres with hpq
            rcases Prod.mk.injEq .. ▸ hpq with ⟨hf, hb⟩
            exact ⟨by rw [h1, hf], hb⟩
      | none =>
        constructor
        · intro h
          exact absurd h (by simp)
        · rintro ⟨cl, heq, hclean, hcl⟩
          cases fm with
          | nil =>
            rcases List.cons.injEq .. ▸ heq with ⟨h1, _⟩
            exact absurd (h1.symm ▸ hcl) hl
          | cons f0 fs =>
            rcases List.cons.injEq .. ▸ heq with ⟨_, h2⟩
            have hres : splitAtClose rest = some (fs, bd) :=
              (ih fs bd).mpr ⟨cl, h2, fun x hx => hclean x (by simp [hx]), hcl⟩
            rw [hsr] at hres
            exact absurd hres (by simp)

/-- Claim C5 counterexample: on content whose third line is " ---" (whitespace
around the delimiter), extraction succeeds and treats that line as the closing
delimiter, although no line after the opening is exactly "---"; so the
metadata block is delimited by the first line that merely trims to "---",
contradicting the claim's "exactly the delimiter" rule. -/
theorem extract_accepts_untrimmed_close :
    extract_frontmatter ("---\nk: v\n ---\nBody!".data) =
        some ("k: v".data, "Body!".data)
      ∧ ((rustLines ("---\nk: v\n ---\nBody!".data)).drop 1).all
          (fun l => decide (l ≠ "---".data)) = true := by
  decide

/-- Claim C5 (amended): for content beginning with the delimiter, extraction
returns a metadata block and body exactly when the lines after the opening
line split as pre ++ close ++ post where close is the FIRST later line that
TRIMS to "---" (not necessarily equal to it); the block is the pre lines
joined by newlines and the body is the post lines joined by newlines. -/
theorem extract_frontmatter_spec (content fm bd : Str)
    (h : startsWithL "---".data content = true) :
    extract_frontmatter content = some (fm, bd) ↔
      ∃ first pre cl post,
        rustLines content = first :: (pre ++ cl :: post)
        ∧ (∀ l ∈ pre, trimStr l ≠ "---".data)
        ∧ trimStr cl = "---".data
        ∧ fm = joinNl pre ∧ bd = joinNl post := by
  unfold extract_frontmatter
  rw [if_pos h]
  cases hrl : rustLines content with
  | nil =>
    dsimp only
    constructor
    · intro hx
      exact absurd hx (by simp)
    · rintro ⟨first, pre, cl, post, heq, -, -, -, -⟩
      exact absurd heq (by simp)
  | cons first rest =>
    dsimp only
    cases hsp : splitAtClose rest with
    | some p =>
      obtain ⟨f, b⟩ := p
      dsimp only
      simp only [Option.some.injEq, Prod.mk.injEq]
      constructor
      · rintro ⟨hfm, hbd⟩
        obtain ⟨cl, hr, hclean, hcl⟩ := (splitAtClose_eq_some_iff rest f b).mp hsp
        exact ⟨first, f, cl, b, by rw [hr], hclean, hcl, hfm.symm, hbd.symm⟩
      · rintro ⟨first2, pre, cl, post, heq, hclean, hcl, hfm, hbd⟩
        obtain ⟨-, h2⟩ := List.cons.inj heq
        have hres : splitAtClose rest = some (pre, post) :=
          (splitAtClose_eq_some_iff rest pre post).mpr ⟨cl, h2, hclean, hcl⟩
        rw [hsp] at hres
        obtain ⟨hf, hb⟩ := Prod.mk.inj (Option.some.inj hres)
        exact ⟨by rw [hf, hfm], by rw [hb, hbd]⟩
    | none =>
      dsimp only
      constructor
      · intro hx
        exact absurd hx (by simp)
      · rintro ⟨first2, pre, cl, post, heq, hclean, hcl, -, -⟩
        obtain ⟨-, h2⟩ := List.cons.inj heq
        have hres : splitAtClose rest = some (pre, post) :=
          (splitAtClose_eq_some_iff rest pre post).mpr ⟨cl, h2, hclean, hcl⟩
        rw [hsp] at hres
        exact absurd hres (by simp)

theorem extract_frontmatter_spec_witness :
    extract_frontmatter ("---\na\n---\nb".data) = some ("a".data, "b".data) :=
  (extract_frontmatter_spec ("---\na\n---\nb".data) "a".data "b".data (by decide)).mpr
    ⟨"---".data, ["a".data], "---".data, ["b".data],
      by decide, by decide, by decide, rfl, rfl⟩

/-- Claim C6: the email type is a function of the subject alone; it is
Newsletter exactly when the lowercased subject contains "newsletter",
"bulletin" or "digest", Direct otherwise, and the MailingList, Group and
Unknown values are never produced. -/
theorem email_type_subject_only {Y Z : Type} (s : Str) (fm : Y) (fm2 : Z) :
    determine_email_type s fm = determine_email_type s fm2
    ∧ (determine_email_type s fm = EmailSortType.newsletter ↔
        IsSub "newsletter".data (lowerStr s) ∨ IsSub "bulletin".data (lowerStr s)
          ∨ IsSub "digest".data (lowerStr s))
    ∧ (determine_email_type s fm = EmailSortType.newsletter
        ∨ determine_email_type s fm = EmailSortType.direct)
    ∧ determine_email_type s fm ≠ EmailSortType.mailingList
    ∧ determine_email_type s fm ≠ EmailSortType.group
    ∧ determine_email_type s fm ≠ EmailSortType.unknown := by
  unfold determine_email_type
  dsimp only
  split
  next hc =>
    simp only [Bool.or_eq_true, containsSub_iff] at hc
    rw [or_assoc] at hc
    simp [hc]
  next hc =>
    simp only [Bool.or_eq_true, containsSub_iff, or_assoc] at hc
    simp [hc]

theorem mem_insertByCountDesc (x z : Str × Nat) (l : List (Str × Nat)) :
    z ∈ insertByCountDesc x l ↔ z = x ∨ z ∈ l := by
  induction l with
  | nil => simp [insertByCountDesc]
  | cons y ys ih =>
    simp only [insertByCountDesc]
    split <;> (simp [ih]; try tauto)

theorem pairwise_insertByCountDesc (x : Str × Nat) (l : List (Str × Nat))
    (h : l.Pairwise (fun a b => b.2 ≤ a.2)) :
    (insertByCountDesc x l).Pairwise (fun a b => b.2 ≤ a.2) := by
  induction l with
  | nil => simp [insertByCountDesc]
  | cons y ys ih =>
    simp only [insertByCountDesc]
    split
    next hle =>
      refine List.Pairwise.cons ?_ h
      intro z hz
      rcases List.mem_cons.mp hz with rfl | hz
      · exact hle
      · exact le_trans (List.rel_of_pairwise_cons h hz) hle
    next hgt =>
      obtain ⟨hy1, hy2⟩ := List.pairwise_cons.mp h
      refine List.Pairwise.cons ?_ (ih hy2)
      intro z hz
      rcases (mem_insertByCountDesc x z ys).mp hz with rfl | hz2
      · exact Nat.le_of_lt (Nat.lt_of_not_le hgt)
      · exact hy1 z hz2

theorem pairwise_sortByCountDesc (l : List (Str × Nat)) :
    (sortByCountDesc l).Pairwise (fun a b => b.2 ≤ a.2) := by
  induction l with
  | nil => simp [sortByCountDesc]
  | cons x xs ih => exact pairwise_insertByCountDesc x _ ih

/-- Claim C7 counterexample: two iteration orders of the same sender-count map
(the two-element map with senders a@x and b@x both counted once) yield
different top-sender lists, so the report's by_sender list is not a
deterministic function of the map and no documented secondary tie-break
exists; ties keep the (unordered) map iteration order. -/
theorem top_senders_not_function_of_map :
    ([("a@x".data, 1), ("b@x".data, 1)] : List (Str × Nat)).Perm
        [("b@x".data, 1), ("a@x".data, 1)]
      ∧ top_senders [("a@x".data, 1), ("b@x".data, 1)]
          ≠ top_senders [("b@x".data, 1), ("a@x".data, 1)] := by
  constructor
  · exact List.Perm.swap _ _ _
  · decide

/-- Claim C7 (amended): the report's by_sender list has length at most 10 and
is sorted by descending count; ties keep the order in which the map was
iterated (stable sort), with no name-based secondary order. -/
theorem top_senders_len_le_sorted (l : List (Str × Nat)) :
    (top_senders l).length ≤ 10
    ∧ (top_senders l).Pairwise (fun a b => b.2 ≤ a.2) := by
  constructor
  · exact List.length_take_le 10 _
  · exact List.Pairwise.sublist (List.take_sublist 10 _) (pairwise_sortByCountDesc l)

/-- Claim C8: the reserved configuration fields summarize_keywords,
delete_subjects and keep_subjects never influence calculate_score or
determine_category: two configurations differing only in those fields give
identical results. -/
theorem reserved_fields_no_influence (cfg : SortConfig) (e : EmailData) (body : Str)
    (sk ds ks : List Str) :
    calculate_score
        { cfg with summarize_keywords := sk, delete_subjects := ds, keep_subjects := ks }
        e body
      = calculate_score cfg e body
    ∧ determine_category
        { cfg with summarize_keywords := sk, delete_subjects := ds, keep_subjects := ks }
        e body
      = determine_category cfg e body := by
  cases cfg
  exact ⟨rfl, rfl⟩

/-- The by_category map holds entries for all three category keys. -/
def has_category_keys (m : List (Str × Nat)) : Prop :=
  (List.lookup "delete".data m).isSome = true
  ∧ (List.lookup "summarize".data m).isSome = true
  ∧ (List.lookup "keep".data m).isSome = true

theorem lookup_isSome_bump (m : List (Str × Nat)) (k k2 : Str)
    (h : (List.lookup k m).isSome = true) :
    (List.lookup k (bump m k2)).isSome = true := by
  induction m with
  | nil => simp [List.lookup] at h
  | cons hd tl ih =>
    obtain ⟨k0, v⟩ := hd
    simp only [List.lookup] at h
    simp only [bump]
    split
    next h0 =>
      simp only [List.lookup]
      cases hkk : (k == k0) with
      | true => rfl
      | false =>
        rw [hkk] at h
        exact h
    next h0 =>
      simp only [List.lookup]
      cases hkk : (k == k0) with
      | true => rfl
      | false =>
        rw [hkk] at h
        exact ih h

theorem record_stats_pres_keys (st : SortStats) (e : EmailData)
    (h : has_category_keys st.by_category) :
    has_category_keys (record_stats st e).by_category := by
  obtain ⟨h1, h2, h3⟩ := h
  exact ⟨lookup_isSome_bump _ _ _ h1, lookup_isSome_bump _ _ _ h2,
    lookup_isSome_bump _ _ _ h3⟩

theorem foldl_record_stats_pres_keys (es : List EmailData) (st : SortStats)
    (h : has_category_keys st.by_category) :
    has_category_keys ((es.foldl record_stats st).by_category) := by
  induction es generalizing st with
  | nil => exact h
  | cons e tl ih => exact ih _ (record_stats_pres_keys st e h)

/-- Claim C9: the by_category statistics map holds all three keys delete,
summarize and keep from construction onward, folding any batch of records
preserves this, and the report summary's categories map (a copy of
by_category) therefore always holds all three keys; on an empty batch each
count is the initial zero. -/
theorem report_has_all_category_keys (es : List EmailData) :
    (List.lookup "delete".data (report_summary_categories (sort_emails_stats es))).isSome = true
    ∧ (List.lookup "summarize".data
        (report_summary_categories (sort_emails_stats es))).isSome = true
    ∧ (List.lookup "keep".data (report_summary_categories (sort_emails_stats es))).isSome = true
    ∧ report_summary_categories (sort_emails_stats []) =
        [("delete".data, 0), ("summarize".data, 0), ("keep".data, 0)] := by
  have base : has_category_keys init_stats.by_category := by
    refine ⟨?_, ?_, ?_⟩ <;> decide
  obtain ⟨h1, h2, h3⟩ := foldl_record_stats_pres_keys es init_stats base
  exact ⟨h1, h2, h3, rfl⟩

/-- Claim C10: the five-term body list of the keep-indicator check is a subset
of the nine-term list of the scoring bonus, so whenever the body check of the
classifier succeeds the score carries the +2 body bonus. -/
theorem body_keep_implies_bonus (body : Str)
    (h : keep_body_keywords.any (fun k => containsSub (lowerStr body) k) = true) :
    body_bonus_term body = 2
    ∧ ∀ k ∈ keep_body_keywords, k ∈ important_keywords := by
  have hsub : ∀ x ∈ keep_body_keywords, x ∈ important_keywords := by decide
  constructor
  · have himp : (important_keywords.any fun k => containsSub (lowerStr body) k) = true := by
      simp only [List.any_eq_true] at h ⊢
      obtain ⟨k, hk, hc⟩ := h
      exact ⟨k, hsub k hk, hc⟩
    simp [body_bonus_term, himp]
  · exact hsub

theorem body_keep_implies_bonus_witness :
    body_bonus_term "urgent reply".data = 2
    ∧ ∀ k ∈ keep_body_keywords, k ∈ important_keywords :=
  body_keep_implies_bonus "urgent reply".data (by decide)
